import Mathlib

/-!
# Verification of the miniredis sorted-set engine and command handlers

This file is a shallow embedding of `cmd_cluster.go` (the CLUSTER stub
commands and the sorted-set command handlers) together with a model of the
database layer that the handlers call into (`db.exists`, `db.t`, `db.zadd`,
`db.zrem`, `db.zelements`, ..., `withTx`, `setDirty`, `redisRange`); that
layer is not part of the provided source, so it is modelled from the spec
(every such definition carries a doc comment starting `Modelled from the
spec:`).

Modelling conventions:
* `float64` scores are modelled as `Int`.  Every operation of the engine
  uses scores only through order comparisons and equality, so any linear
  order is a faithful model; float-specific behaviour (NaN, rounding,
  decimal parsing) is outside the scope of the claims treated here.
  Consequently `strconv.ParseFloat` / `strconv.Atoi` are modelled as an
  integer parser (optional sign followed by digits).
* Go `string` comparison is bytewise lexicographic; Lean `String` order is
  lexicographic on characters, which agrees on ASCII data.
* The transaction wrapper is modelled by the `HResult` type: an `early`
  result means the handler returned before `withTx` (the closure was never
  entered) and records whether `setDirty` was called; a `reply` result
  means the closure was entered and records the reply and the database
  it left behind.  `setDirty` is never called from inside a closure in the
  source, so a `reply` result also means the dirty flag was left untouched.
-/

namespace Miniredis

/-- One element of a sorted set: embeds the `ssElem` pair (member, score). -/
structure SSElem where
  member : String
  score : Int
deriving DecidableEq, Repr

/-- A snapshot of sorted-set elements, embedding the `ssElems` slice. -/
abbrev SSElems := List SSElem

/-! ## String primitives

Go compares strings bytewise and the source lowercases/uppercases option
tokens with `strings.ToLower`/`strings.ToUpper` before comparing them with
ASCII literals.  These are modelled with explicitly computable char-code
comparisons (which agree with Go's bytewise semantics on ASCII data). -/

/-- Bytewise lexicographic strict order on char lists (Go `<`). -/
def chListLT : List Char → List Char → Bool
  | [], [] => false
  | [], _ :: _ => true
  | _ :: _, [] => false
  | a :: as, b :: bs =>
    if a.toNat < b.toNat then true
    else if b.toNat < a.toNat then false
    else chListLT as bs

/-- Go `a < b` on strings. -/
def strLT (a b : String) : Bool :=
  chListLT a.data b.data

/-- Go `a <= b` on strings. -/
def strLE (a b : String) : Bool :=
  !(strLT b a)

/-- The char code with an ASCII upper-case letter folded to lower case. -/
def lowCode (c : Char) : Nat :=
  if 65 ≤ c.toNat && c.toNat ≤ 90 then c.toNat + 32 else c.toNat

/-- ASCII-case-insensitive equality of char lists. -/
def eqFoldList : List Char → List Char → Bool
  | [], [] => true
  | a :: as, b :: bs => lowCode a = lowCode b && eqFoldList as bs
  | _, _ => false

/-- ASCII-case-insensitive string equality: models the source's
`strings.ToLower(x) == "literal"` / `strings.ToUpper(x) == "LITERAL"`
comparisons. -/
def eqFold (a b : String) : Bool :=
  eqFoldList a.data b.data

/-! ## The `for ... break` scan loops

Both `withSSRange` and `withLexRange` use the same Go idiom twice: scan the
slice left to right, and at the first element satisfying the break
condition slice the list (from or up to that index) and stop; if no element
satisfies the condition, the slice is left **unchanged**.  `findFirst`
returns the loop index at which the break fires. -/

/-- Index of the first element satisfying `p`, if any (the loop index at
which the Go `for ... break` fires). -/
def findFirst (p : α → Bool) : List α → Option Nat
  | [] => none
  | a :: t => if p a then some 0 else (findFirst p t).map (· + 1)

/-- Embeds the Go loop `for i, m := range l { if p m { l = l[i:]; break } }`:
drop everything before the first element satisfying `p`; if no element
satisfies `p`, the list is returned unchanged. -/
def dropBefore (p : α → Bool) (l : List α) : List α :=
  match findFirst p l with
  | some i => l.drop i
  | none => l

/-- Embeds the Go loop `for i, m := range l { if p m { l = l[:i]; break } }`:
keep everything before the first element satisfying `p`; if no element
satisfies `p`, the list is returned unchanged. -/
def takeBefore (p : α → Bool) (l : List α) : List α :=
  match findFirst p l with
  | some i => l.take i
  | none => l

/-- Embeds `withSSRange`: limits a list of sorted set elements by the
ZRANGEBYSCORE range logic (first a min-bound scan, then a max-bound scan,
each with the inclusive/exclusive break condition of the source). -/
def withSSRange (members : SSElems) (min : Int) (minIncl : Bool)
    (max : Int) (maxIncl : Bool) : SSElems :=
  let members :=
    if minIncl then dropBefore (fun m => decide (min ≤ m.score)) members
    else dropBefore (fun m => decide (min < m.score)) members
  if maxIncl then takeBefore (fun m => decide (max < m.score)) members
  else takeBefore (fun m => decide (max ≤ m.score)) members

/-- The min-bound block of `withLexRange` (`if min != "-" { ... }`). -/
def lexMinStage (min : String) (minIncl : Bool) (members : List String) :
    List String :=
  if min = "-" then members
  else if minIncl then dropBefore (fun m => strLE min m) members
  else dropBefore (fun m => strLT min m) members

/-- The max-bound block of `withLexRange` (`if max != "+" { ... }`). -/
def lexMaxStage (max : String) (maxIncl : Bool) (members : List String) :
    List String :=
  if max = "+" then members
  else if maxIncl then takeBefore (fun m => strLT max m) members
  else takeBefore (fun m => strLE max m) members

/-- Embeds `withLexRange`: limits a lexicographically sorted member list.
`"-"`/`"+"` are the infinity sentinels; `max = "-"` or `min = "+"`
short-circuits to the empty result; `min = "-"` (resp. `max = "+"`) skips
the corresponding filter. -/
def withLexRange (members : List String) (min : String) (minIncl : Bool)
    (max : String) (maxIncl : Bool) : List String :=
  if max = "-" || min = "+" then []
  else lexMaxStage max maxIncl (lexMinStage min minIncl members)

/-! ## Token parsers -/

/-- Digit-string accumulator used by `parseScore`. -/
def digitsAux : List Char → Nat → Option Nat
  | [], acc => some acc
  | c :: cs, acc =>
    if c.isDigit then digitsAux cs (acc * 10 + (c.toNat - 48)) else none

/-- Model of `strconv.ParseFloat` on the integer-formed strings of this
development: an optional sign followed by one or more digits.  (Scores are
modelled as integers, see the header.) -/
def parseScore (s : String) : Option Int :=
  match s.data with
  | [] => none
  | '-' :: cs =>
    match cs with
    | [] => none
    | _ => (digitsAux cs 0).map (fun n => -(n : Int))
  | '+' :: cs =>
    match cs with
    | [] => none
    | _ => (digitsAux cs 0).map (fun n => (n : Int))
  | cs => (digitsAux cs 0).map (fun n => (n : Int))

/-- Model of `strconv.Atoi`, which on integer-formed strings accepts the
same inputs as the `ParseFloat` model. -/
def parseInt (s : String) : Option Int :=
  parseScore s

/-- Embeds `parseFloatRange`: ZRANGEBYSCORE bounds are inclusive unless the
string starts with `'('`; the empty string parses without error as the
value `0` with the inclusive flag `false`. -/
def parseFloatRange (s : String) : Option (Int × Bool) :=
  if s.length = 0 then some (0, false)
  else
    match s.data with
    | '(' :: rest => (parseScore (String.mk rest)).map (fun f => (f, false))
    | _ => (parseScore s).map (fun f => (f, true))

/-- Embeds `parseLexrange`: a lex bound is exactly `"+"`, exactly `"-"`,
or starts with `'['` (inclusive) or `'('` (exclusive); anything else is an
invalid-range-item error (`none`). -/
def parseLexrange (s : String) : Option (String × Bool) :=
  if s.length = 0 then none
  else if s = "+" || s = "-" then some (s, false)
  else
    match s.data with
    | '(' :: rest => some (String.mk rest, false)
    | '[' :: rest => some (String.mk rest, true)
    | _ => none

/-! ## Database model

The keyspace accessor layer (`db.exists`, `db.t`, the `z*` accessors) and
the per-element sorted-set operations are not part of the provided source;
they are modelled from the spec (sections 4.1 and 4.3). -/

/-- A typed value in a keyspace.  Only the type tags matter to the claims;
`strVal` and `listVal` stand for the non-ordered-set types. -/
inductive RValue where
  | strVal (s : String)
  | listVal (xs : List String)
  | zsetVal (z : SSElems)
deriving DecidableEq, Repr

/-- A logical database: a finite map from key name to typed value,
represented as an association list with distinct keys. -/
abbrev DB := List (String × RValue)

/-- Modelled from the spec: the keyspace accessor's key lookup. -/
def dbLookup (db : DB) (k : String) : Option RValue :=
  (db.find? (fun p => p.1 = k)).map (fun p => p.2)

/-- Modelled from the spec: `db.exists(key)`. -/
def dbExists (db : DB) (k : String) : Bool :=
  (dbLookup db k).isSome

/-- Modelled from the spec: `db.t(key)`, the type tag of a key. -/
def dbType (db : DB) (k : String) : String :=
  match dbLookup db k with
  | some (.strVal _) => "string"
  | some (.listVal _) => "list"
  | some (.zsetVal _) => "zset"
  | none => "none"

/-- Modelled from the spec: update-or-insert of a key's value. -/
def dbSet (db : DB) (k : String) (v : RValue) : DB :=
  match db with
  | [] => [(k, v)]
  | p :: rest => if p.1 = k then (k, v) :: rest else p :: dbSet rest k v

/-- Modelled from the spec: removal of a key from the keyspace. -/
def dbDel (db : DB) (k : String) : DB :=
  db.filter (fun p => ¬ p.1 = k)

/-- The member→score contents of a key (empty when the key is absent or
holds a different type; the handlers only read it after type-checking). -/
def zsetOf (db : DB) (k : String) : SSElems :=
  match dbLookup db k with
  | some (.zsetVal z) => z
  | _ => []

/-- Insertion step of the stable insertion sort below. -/
def insertSorted (le : α → α → Bool) (x : α) : List α → List α
  | [] => [x]
  | y :: ys => if le x y then x :: y :: ys else y :: insertSorted le x ys

/-- Stable insertion sort by a boolean order. -/
def sortBy (le : α → α → Bool) : List α → List α
  | [] => []
  | x :: xs => insertSorted le x (sortBy le xs)

/-- The canonical sorted-set order: score ascending, member ascending. -/
def canonLE (a b : SSElem) : Bool :=
  decide (a.score < b.score) ||
    (decide (a.score = b.score) && strLE a.member b.member)

/-- Modelled from the spec: `db.zelements(key)`, the snapshot of (member,
score) pairs in canonical order (score ascending, member ascending). -/
def zelementsOf (db : DB) (k : String) : SSElems :=
  sortBy canonLE (zsetOf db k)

/-- Modelled from the spec: `db.zmembers(key)`, the members in canonical
order. -/
def zmembersOf (db : DB) (k : String) : List String :=
  (zelementsOf db k).map (fun e => e.member)

/-- Member existence inside a sorted set. -/
def hasMem (z : SSElems) (member : String) : Bool :=
  z.any (fun e => e.member = member)

/-- The score of a member inside a sorted set, if present. -/
def memberScore (z : SSElems) (member : String) : Option Int :=
  (z.find? (fun e => e.member = member)).map (fun e => e.score)

/-- Modelled from the spec: the element-level `add`: insert or update;
returns `true` only if the member was absent. -/
def zaddElem (z : SSElems) (score : Int) (member : String) : SSElems × Bool :=
  match z with
  | [] => ([⟨member, score⟩], true)
  | e :: rest =>
    if e.member = member then (⟨member, score⟩ :: rest, false)
    else
      let r := zaddElem rest score member
      (e :: r.1, r.2)

/-- Modelled from the spec: `db.zadd(key, score, member)`; creates the key
on first add, returns `true` only if the member was absent. -/
def dbZadd (db : DB) (k : String) (score : Int) (member : String) :
    DB × Bool :=
  let r := zaddElem (zsetOf db k) score member
  (dbSet db k (.zsetVal r.1), r.2)

/-- Modelled from the spec: `db.zrem(key, member)`; removes a member and
deletes the key when its last member is removed; returns whether the
member existed. -/
def dbZrem (db : DB) (k : String) (member : String) : DB × Bool :=
  match dbLookup db k with
  | some (.zsetVal z) =>
    let z' := z.filter (fun e => ¬ e.member = member)
    (if z'.isEmpty then dbDel db k else dbSet db k (.zsetVal z'),
     hasMem z member)
  | _ => (db, false)

/-- Modelled from the spec: `db.zscore(key, member)` (read after the
handler has established existence). -/
def zscoreVal (db : DB) (k : String) (member : String) : Int :=
  match memberScore (zsetOf db k) member with
  | some s => s
  | none => 0

/-- Modelled from the spec: `db.zrank(key, member, direction)`: the 0-based
position in canonical order (ascending) or in the reverse of canonical
order (descending). -/
def dbZrank (db : DB) (k : String) (member : String) (reverse : Bool) :
    Option Nat :=
  let ms := if reverse then (zmembersOf db k).reverse else zmembersOf db k
  findFirst (fun m => m = member) ms

/-- Modelled from the spec: the shared rank-range index-normalization rule
(`redisRange`): negative indices count from the end, indices are clamped
into `[0, length]`, and if start > end after clamping or start ≥ length
the result is empty; the returned pair is the half-open slice window. -/
def redisRange (l : Nat) (start stop : Int) : Nat × Nat :=
  let s0 : Int := if start < 0 then start + l else start
  let e0 : Int := if stop < 0 then stop + l else stop
  let s1 : Int := if s0 < 0 then 0 else if (l : Int) < s0 then l else s0
  let e1 : Int := if e0 < 0 then 0 else if (l : Int) < e0 then l else e0
  if e1 < s1 ∨ (l : Int) ≤ s1 then (0, 0)
  else (s1.toNat, if l ≤ e1.toNat then l else e1.toNat + 1)

/-- Modelled from the spec: `formatFloat`, the decimal rendering of a score
(scores being modelled as integers, this is integer rendering). -/
def formatFloat (s : Int) : String :=
  toString s

/-! ## Error messages

`msgSyntaxError`, `msgInvalidInt`, `msgInvalidMinMax`, `msgInvalidRangeItem`
and `ErrWrongType` are referenced but not defined in the provided source;
their exact texts are modelled from the spec's error taxonomy (section 7).
Only their distinctness matters to the claims. -/

def msgSyntaxError : String := "ERR syntax error"

def msgInvalidInt : String := "ERR value is not an integer or out of range"

def msgInvalidMinMax : String := "ERR min or max is not a float"

def msgInvalidRangeItem : String := "ERR min or max not valid string range item"

/-- Modelled from the spec: the distinct wrong-type error string
(`ErrWrongType.Error()`). -/
def msgWrongType : String :=
  "WRONGTYPE Operation against a key holding the wrong kind of value"

/-! ## Replies and the transaction wrapper -/

/-- A command reply, at the semantic level of the reply primitives:
integer, nil, bulk string, array of strings (the array-length prefix
followed by its strings), or error. -/
inductive Reply where
  | ints (n : Int)
  | nil
  | bulk (s : String)
  | arr (xs : List String)
  | err (msg : String)
deriving DecidableEq, Repr

/-- Modelled from the spec: the observable outcome of one handler
invocation through the transaction wrapper (`withTx`/`setDirty`).
`early dirty msg` means the handler replied with `msg` before entering the
closure, and `dirty` records whether `setDirty` was called; `reply r db`
means the closure was entered and produced reply `r` leaving database `db`
(no closure in the source calls `setDirty`, so `reply` also means the
dirty flag was left untouched). -/
inductive HResult where
  | early (dirty : Bool) (msg : String)
  | reply (r : Reply) (db : DB)
deriving DecidableEq, Repr

/-! ## Command handlers -/

/-- Embeds the trailing-option loop of `makeCmdZrangebyscore`: WITHSCORES
and LIMIT in any order and multiplicity; an incomplete LIMIT is a syntax
error **without** `setDirty` in the source; a bad LIMIT integer is an
invalid-integer error with `setDirty`; any other token is a syntax error
with `setDirty`.  Returns either `(dirty, msg)` or
`(withInts, withLimit, limitStart, limitEnd)`. -/
def parseOptsBS : List String → Bool → Bool → Int → Int →
    Sum (Bool × String) (Bool × Bool × Int × Int)
  | [], ws, wl, ls, le => .inr (ws, wl, ls, le)
  | a :: rest, ws, wl, ls, le =>
    if eqFold a "limit" then
      match rest with
      | x :: y :: rest' =>
        match parseInt x with
        | none => .inl (true, msgInvalidInt)
        | some ls' =>
          match parseInt y with
          | none => .inl (true, msgInvalidInt)
          | some le' => parseOptsBS rest' ws true ls' le'
      | _ => .inl (false, msgSyntaxError)
    else if eqFold a "withscores" then parseOptsBS rest true wl ls le
    else .inl (true, msgSyntaxError)

/-- Embeds the trailing-option loop of `cmdZrangebylex`: as
`parseOptsBS` but without the WITHSCORES branch. -/
def parseOptsLex : List String → Bool → Int → Int →
    Sum (Bool × String) (Bool × Int × Int)
  | [], wl, ls, le => .inr (wl, ls, le)
  | a :: rest, wl, ls, le =>
    if eqFold a "limit" then
      match rest with
      | x :: y :: rest' =>
        match parseInt x with
        | none => .inl (true, msgInvalidInt)
        | some ls' =>
          match parseInt y with
          | none => .inl (true, msgInvalidInt)
          | some le' => parseOptsLex rest' true ls' le'
      | _ => .inl (false, msgSyntaxError)
    else .inl (true, msgSyntaxError)

/-- Embeds the LIMIT application shared verbatim by `cmdZrangebylex` and
`makeCmdZrangebyscore`: negative offset empties the result; an offset at or
past the length empties it; otherwise drop `limitStart` elements and, when
`limitEnd` is non-negative, truncate to `limitEnd` elements. -/
def applyLimit (limitStart limitEnd : Int) (members : List α) : List α :=
  if limitStart < 0 then []
  else
    let members :=
      if limitStart < (members.length : Int) then members.drop limitStart.toNat
      else []
    if 0 ≤ limitEnd then
      if (limitEnd : Int) < (members.length : Int) then
        members.take limitEnd.toNat
      else members
    else members

/-- Embeds the `cmdZadd` parse loop: the (score, member) argument pairs in
argument order; `none` when some score token does not parse. -/
def parsePairs : List String → Option (List (Int × String))
  | [] => some []
  | s :: mem :: rest =>
    match parseScore s with
    | none => none
    | some sc => (parsePairs rest).map (fun ps => (sc, mem) :: ps)
  | _ :: [] => none

/-- Embeds the Go map assignment `elems[member] = score` on the association
-list representation of the unordered map. -/
def mapAssign : List (String × Int) → String → Int → List (String × Int)
  | [], k, v => [(k, v)]
  | p :: rest, k, v =>
    if p.1 = k then (k, v) :: rest else p :: mapAssign rest k v

/-- Builds the `elems` map of `cmdZadd` from the parsed pairs in argument
order (duplicate members: last assignment wins). -/
def buildElems : List (Int × String) → List (String × Int) →
    List (String × Int)
  | [], m => m
  | (sc, mem) :: rest, m => buildElems rest (mapAssign m mem sc)

/-- Embeds the `cmdZadd` closure loop `for member, score := range elems`:
each entry is fed to `db.zadd` and the `true` returns are counted.  (The Go
map iteration order is unspecified; since the map's keys are distinct the
observable outcome is order-independent, and the model iterates in
first-assignment order.) -/
def foldZadd (db : DB) (k : String) : List (String × Int) → DB × Nat
  | [] => (db, 0)
  | (mem, sc) :: rest =>
    let r := dbZadd db k sc mem
    let r' := foldZadd r.1 k rest
    (r'.1, (if r.2 then 1 else 0) + r'.2)

/-- Embeds `cmdZadd`. -/
def cmdZadd (args : List String) (db : DB) : HResult :=
  if args.length < 3 then
    .early true "ERR wrong number of arguments for 'zadd' command"
  else
    match args with
    | key :: rest =>
      if rest.length % 2 ≠ 0 then .early true msgSyntaxError
      else
        match parsePairs rest with
        | none => .early true "ERR value is not a valid float"
        | some pairs =>
          if dbExists db key && !(dbType db key = "zset") then
            .reply (.err msgWrongType) db
          else
            let r := foldZadd db key (buildElems pairs [])
            .reply (.ints r.2) r.1
    | [] => .early true "ERR wrong number of arguments for 'zadd' command"

/-- Embeds `cmdZcard`. -/
def cmdZcard (args : List String) (db : DB) : HResult :=
  if args.length ≠ 1 then
    .early true "ERR wrong number of arguments for 'zcard' command"
  else
    match args with
    | [key] =>
      if !dbExists db key then .reply (.ints 0) db
      else if !(dbType db key = "zset") then .reply (.err msgWrongType) db
      else .reply (.ints (zsetOf db key).length) db
    | _ => .early true "ERR wrong number of arguments for 'zcard' command"

/-- Embeds `cmdZcount`. -/
def cmdZcount (args : List String) (db : DB) : HResult :=
  if args.length ≠ 3 then
    .early true "ERR wrong number of arguments for 'zcount' command"
  else
    match args with
    | [key, minS, maxS] =>
      match parseFloatRange minS with
      | none => .early true msgInvalidMinMax
      | some (mn, mni) =>
        match parseFloatRange maxS with
        | none => .early true msgInvalidMinMax
        | some (mx, mxi) =>
          if !dbExists db key then .reply (.ints 0) db
          else if !(dbType db key = "zset") then .reply (.err msgWrongType) db
          else
            .reply
              (.ints ((withSSRange (zelementsOf db key) mn mni mx mxi).length))
              db
    | _ => .early true "ERR wrong number of arguments for 'zcount' command"

/-- The closure body of `makeCmdZrange` (run inside `withTx`, after all
argument parsing has succeeded). -/
def zrangeRun (reverse : Bool) (db : DB) (key : String) (start stop : Int)
    (withInts : Bool) : Reply :=
  if !dbExists db key then .arr []
  else if !(dbType db key = "zset") then .err msgWrongType
  else
    let members := zmembersOf db key
    let members := if reverse then members.reverse else members
    let w := redisRange members.length start stop
    let slice := (members.drop w.1).take (w.2 - w.1)
    if withInts then
      .arr (slice.flatMap (fun el => [el, formatFloat (zscoreVal db key el)]))
    else .arr slice

/-- Embeds `makeCmdZrange` (ZRANGE when `reverse = false`, ZREVRANGE when
`reverse = true`).  Note the source's missing `setDirty` on the
more-than-four-arguments syntax error. -/
def makeCmdZrange (cmdName : String) (reverse : Bool) (args : List String)
    (db : DB) : HResult :=
  if args.length < 3 then
    .early true
      ("ERR wrong number of arguments for '" ++ cmdName ++ "' command")
  else
    match args with
    | key :: startS :: stopS :: rest =>
      match parseInt startS with
      | none => .early true msgInvalidInt
      | some start =>
        match parseInt stopS with
        | none => .early true msgInvalidInt
        | some stop =>
          if 4 < args.length then .early false msgSyntaxError
          else
            match rest with
            | [w] =>
              if !eqFold w "withscores" then .early true msgSyntaxError
              else .reply (zrangeRun reverse db key start stop true) db
            | _ => .reply (zrangeRun reverse db key start stop false) db
    | _ =>
      .early true
        ("ERR wrong number of arguments for '" ++ cmdName ++ "' command")

/-- ZRANGE. -/
def cmdZrange (args : List String) (db : DB) : HResult :=
  makeCmdZrange "zrange" false args db

/-- ZREVRANGE. -/
def cmdZrevrange (args : List String) (db : DB) : HResult :=
  makeCmdZrange "zrevrange" true args db

/-- Embeds `cmdZrangebylex`. -/
def cmdZrangebylex (args : List String) (db : DB) : HResult :=
  if args.length < 3 then
    .early true "ERR wrong number of arguments for 'zrangebylex' command"
  else
    match args with
    | key :: minS :: maxS :: rest =>
      match parseLexrange minS with
      | none => .early true msgInvalidRangeItem
      | some (mn, mni) =>
        match parseLexrange maxS with
        | none => .early true msgInvalidRangeItem
        | some (mx, mxi) =>
          match parseOptsLex rest false 0 0 with
          | .inl e => .early e.1 e.2
          | .inr (withLimit, limitStart, limitEnd) =>
            if !dbExists db key then .reply (.arr []) db
            else if !(dbType db key = "zset") then
              .reply (.err msgWrongType) db
            else
              let members := sortBy strLE (zmembersOf db key)
              let members := withLexRange members mn mni mx mxi
              let members :=
                if withLimit then applyLimit limitStart limitEnd members
                else members
              .reply (.arr members) db
    | _ => .early true "ERR wrong number of arguments for 'zrangebylex' command"

/-- Embeds `makeCmdZrangebyscore` (ZRANGEBYSCORE when `reverse = false`,
ZREVRANGEBYSCORE when `reverse = true`): when `reverse` the parsed
`(min, minIncl)` and `(max, maxIncl)` pairs are swapped before filtering
and the filtered sequence is reversed. -/
def makeCmdZrangebyscore (cmdName : String) (reverse : Bool)
    (args : List String) (db : DB) : HResult :=
  if args.length < 3 then
    .early true
      ("ERR wrong number of arguments for '" ++ cmdName ++ "' command")
  else
    match args with
    | key :: minS :: maxS :: rest =>
      match parseFloatRange minS with
      | none => .early true msgInvalidMinMax
      | some (mn0, mni0) =>
        match parseFloatRange maxS with
        | none => .early true msgInvalidMinMax
        | some (mx0, mxi0) =>
          match parseOptsBS rest false false 0 0 with
          | .inl e => .early e.1 e.2
          | .inr (withInts, withLimit, limitStart, limitEnd) =>
            if !dbExists db key then .reply (.arr []) db
            else if !(dbType db key = "zset") then
              .reply (.err msgWrongType) db
            else
              let mn := if reverse then mx0 else mn0
              let mni := if reverse then mxi0 else mni0
              let mx := if reverse then mn0 else mx0
              let mxi := if reverse then mni0 else mxi0
              let members := withSSRange (zelementsOf db key) mn mni mx mxi
              let members := if reverse then members.reverse else members
              let members :=
                if withLimit then applyLimit limitStart limitEnd members
                else members
              if withInts then
                .reply
                  (.arr (members.flatMap
                    (fun el => [el.member, formatFloat el.score]))) db
              else .reply (.arr (members.map (fun el => el.member))) db
    | _ =>
      .early true
        ("ERR wrong number of arguments for '" ++ cmdName ++ "' command")

/-- ZRANGEBYSCORE. -/
def cmdZrangebyscore (args : List String) (db : DB) : HResult :=
  makeCmdZrangebyscore "zrangebyscore" false args db

/-- ZREVRANGEBYSCORE. -/
def cmdZrevrangebyscore (args : List String) (db : DB) : HResult :=
  makeCmdZrangebyscore "zrevrangebyscore" true args db

/-- Embeds `makeCmdZrank` (ZRANK when `reverse = false`, ZREVRANK when
`reverse = true`). -/
def makeCmdZrank (cmdName : String) (reverse : Bool) (args : List String)
    (db : DB) : HResult :=
  if args.length ≠ 2 then
    .early true
      ("ERR wrong number of arguments for '" ++ cmdName ++ "' command")
  else
    match args with
    | [key, member] =>
      if !dbExists db key then .reply .nil db
      else if !(dbType db key = "zset") then .reply (.err msgWrongType) db
      else
        match dbZrank db key member reverse with
        | none => .reply .nil db
        | some rank => .reply (.ints rank) db
    | _ =>
      .early true
        ("ERR wrong number of arguments for '" ++ cmdName ++ "' command")

/-- ZRANK. -/
def cmdZrank (args : List String) (db : DB) : HResult :=
  makeCmdZrank "zrank" false args db

/-- ZREVRANK. -/
def cmdZrevrank (args : List String) (db : DB) : HResult :=
  makeCmdZrank "zrevrank" true args db

/-- Embeds the `cmdZrem` closure loop: each member is fed to `db.zrem` and
the `true` returns are counted. -/
def foldZrem (db : DB) (k : String) : List String → DB × Nat
  | [] => (db, 0)
  | mem :: rest =>
    let r := dbZrem db k mem
    let r' := foldZrem r.1 k rest
    (r'.1, (if r.2 then 1 else 0) + r'.2)

/-- Embeds `cmdZrem`. -/
def cmdZrem (args : List String) (db : DB) : HResult :=
  if args.length < 2 then
    .early true "ERR wrong number of arguments for 'zrem' command"
  else
    match args with
    | key :: members =>
      if !dbExists db key then .reply (.ints 0) db
      else if !(dbType db key = "zset") then .reply (.err msgWrongType) db
      else
        let r := foldZrem db key members
        .reply (.ints r.2) r.1
    | [] => .early true "ERR wrong number of arguments for 'zrem' command"

/-- Embeds `cmdZscore`. -/
def cmdZscore (args : List String) (db : DB) : HResult :=
  if args.length ≠ 2 then
    .early true "ERR wrong number of arguments for 'zscore' command"
  else
    match args with
    | [key, member] =>
      if !dbExists db key then .reply .nil db
      else if !(dbType db key = "zset") then .reply (.err msgWrongType) db
      else if !hasMem (zsetOf db key) member then .reply .nil db
      else .reply (.bulk (formatFloat (zscoreVal db key member))) db
    | _ => .early true "ERR wrong number of arguments for 'zscore' command"

/-! ## Cluster stub commands -/

/-- A raw protocol write event, for the cluster stubs whose replies are
nested arrays. -/
inductive OutEvent where
  | olen (n : Nat)
  | oint (i : Int)
  | obulk (s : String)
deriving DecidableEq, Repr

/-- Embeds `cmdClusterSlots`: a fixed single-slot-range reply built from
the server's address. -/
def cmdClusterSlots (srvIP : String) (srvPort : Int) (args : List String)
    (db : DB) : List OutEvent :=
  [.olen 1, .olen 3, .oint 0, .oint 16383, .olen 3, .obulk srvIP,
   .oint srvPort, .obulk "09dbe9720cda62f7865eabc5fd8857c5d2678366"]

/-- Embeds `cmdClusterKeySlot`: always the integer 163. -/
def cmdClusterKeySlot (args : List String) (db : DB) : List OutEvent :=
  [.oint 163]

/-- Embeds `cmdClusterNodes`: a fixed single-node description. -/
def cmdClusterNodes (args : List String) (db : DB) : List OutEvent :=
  [.obulk "e7d1eecce10fd6bb5eb35b9f99a514335d9ba9ca 127.0.0.1:7000@7000 myself,master - 0 0 1 connected 0-16383"]

/-- Outcome of the CLUSTER dispatcher: either the events written inside
`withTx`, or the dirty-setting unsupported-subcommand error. -/
inductive ClusterOut where
  | events (evs : List OutEvent)
  | dirtyErr (msg : String)
deriving DecidableEq, Repr

/-- Embeds `cmdCluster`, the CLUSTER subcommand dispatcher. -/
def cmdCluster (srvIP : String) (srvPort : Int) (args : List String)
    (db : DB) : ClusterOut :=
  if args.length = 1 && eqFold (args.headD "") "SLOTS" then
    .events (cmdClusterSlots srvIP srvPort args db)
  else if args.length = 2 && eqFold (args.headD "") "KEYSLOT" then
    .events (cmdClusterKeySlot args db)
  else if args.length = 1 && eqFold (args.headD "") "NODES" then
    .events (cmdClusterNodes args db)
  else
    .dirtyErr
      ("ERR 'CLUSTER " ++ String.intercalate " " args ++ "' not supported")

/-! ## Statement-side predicates and helpers

These definitions are used only to *state* the theorems below: the
satisfaction predicates of the score/lex range bounds, reply reversal, and
the last-assignment lookup for ZADD argument lists. -/

/-- Whether an element's score satisfies the minimum bound per its
inclusivity flag (`score ≥ min` if inclusive, else `score > min`). -/
def minScoreOK (min : Int) (minIncl : Bool) (m : SSElem) : Bool :=
  if minIncl then decide (min ≤ m.score) else decide (min < m.score)

/-- Whether an element's score satisfies the maximum bound per its
inclusivity flag (`score ≤ max` if inclusive, else `score < max`). -/
def maxScoreOK (max : Int) (maxIncl : Bool) (m : SSElem) : Bool :=
  if maxIncl then decide (m.score ≤ max) else decide (m.score < max)

/-- The max-side break condition of the source's scan loop (`score > max`
if inclusive, else `score ≥ max`). -/
def maxScoreViol (max : Int) (maxIncl : Bool) (m : SSElem) : Bool :=
  if maxIncl then decide (max < m.score) else decide (max ≤ m.score)

/-- Whether a member satisfies the lex minimum bound: `"-"` is no
constraint, otherwise `m ≥ min` (inclusive) or `m > min` (exclusive). -/
def lexMinOK (min : String) (minIncl : Bool) (m : String) : Bool :=
  if min = "-" then true
  else if minIncl then strLE min m else strLT min m

/-- Whether a member satisfies the lex maximum bound: `"+"` is no
constraint, otherwise `m ≤ max` (inclusive) or `m < max` (exclusive). -/
def lexMaxOK (max : String) (maxIncl : Bool) (m : String) : Bool :=
  if max = "+" then true
  else if maxIncl then strLE m max else strLT m max

/-- Statement helper: reverse the element sequence of an array reply,
leaving every other reply unchanged. -/
def revReply : Reply → Reply
  | .arr l => .arr l.reverse
  | r => r

/-- Statement helper: `revReply` lifted to handler outcomes. -/
def hrevArr : HResult → HResult
  | .reply r d => .reply (revReply r) d
  | r => r

/-- Statement helper: the score of the **last** pair for `mem` in argument
order, if any. -/
def lastScore : List (Int × String) → String → Option Int
  | [], _ => none
  | (sc, m) :: rest, mem =>
    match lastScore rest mem with
    | some v => some v
    | none => if m = mem then some sc else none

/-- Association-list lookup on the built `elems` map. -/
def alookup (m : List (String × Int)) (k : String) : Option Int :=
  (m.find? (fun p => p.1 = k)).map (fun p => p.2)

/-! ## Properties of the scan loops -/

theorem findFirst_eq_none {p : α → Bool} {l : List α} :
    findFirst p l = none ↔ ∀ x ∈ l, p x = false := by
  induction l with
  | nil => simp [findFirst]
  | cons a t ih =>
    by_cases hpa : p a = true
    · simp [findFirst, hpa]
    · have hpa' : p a = false := by simpa using hpa
      simp [findFirst, hpa', Option.map_eq_none', ih]

theorem dropBefore_some {p : α → Bool} {l : List α} {i : Nat}
    (h : findFirst p l = some i) : dropBefore p l = l.drop i := by
  rw [dropBefore, h]

theorem dropBefore_none {p : α → Bool} {l : List α}
    (h : findFirst p l = none) : dropBefore p l = l := by
  rw [dropBefore, h]

theorem takeBefore_some {q : α → Bool} {l : List α} {i : Nat}
    (h : findFirst q l = some i) : takeBefore q l = l.take i := by
  rw [takeBefore, h]

theorem takeBefore_none {q : α → Bool} {l : List α}
    (h : findFirst q l = none) : takeBefore q l = l := by
  rw [takeBefore, h]

theorem dropBefore_eq_filter {p : α → Bool} {l : List α}
    (hmono : l.Pairwise (fun a b => p a = true → p b = true))
    (hex : ∃ x ∈ l, p x = true) :
    dropBefore p l = l.filter p := by
  induction l with
  | nil => simp at hex
  | cons a t ih =>
    rw [List.pairwise_cons] at hmono
    by_cases hpa : p a = true
    · have hfst : findFirst p (a :: t) = some 0 := by simp [findFirst, hpa]
      have ht : ∀ b ∈ t, p b = true := fun b hb => hmono.1 b hb hpa
      rw [dropBefore_some hfst, List.drop_zero, List.filter_cons_of_pos hpa,
        List.filter_eq_self.mpr ht]
    · have hpa' : p a = false := by simpa using hpa
      have hext : ∃ x ∈ t, p x = true := by
        rcases hex with ⟨x, hx, hpx⟩
        rcases List.mem_cons.mp hx with rfl | hx'
        · exact absurd hpx hpa
        · exact ⟨x, hx', hpx⟩
      rcases h : findFirst p t with _ | i
      · rcases hext with ⟨x, hx, hpx⟩
        have := findFirst_eq_none.mp h x hx
        simp [hpx] at this
      · have hfst : findFirst p (a :: t) = some (i + 1) := by
          simp [findFirst, hpa', h]
        rw [dropBefore_some hfst, List.drop_succ_cons,
          List.filter_cons_of_neg (by simp [hpa'])]
        have := ih hmono.2 hext
        rwa [dropBefore_some h] at this

theorem takeBefore_eq_filter {q : α → Bool} {l : List α}
    (hmono : l.Pairwise (fun a b => q a = true → q b = true)) :
    takeBefore q l = l.filter (fun x => !q x) := by
  induction l with
  | nil => rfl
  | cons a t ih =>
    rw [List.pairwise_cons] at hmono
    by_cases hqa : q a = true
    · have hfst : findFirst q (a :: t) = some 0 := by simp [findFirst, hqa]
      have ht : ∀ b ∈ t, q b = true := fun b hb => hmono.1 b hb hqa
      rw [takeBefore_some hfst, List.take_zero,
        List.filter_cons_of_neg (by simp [hqa]),
        List.filter_eq_nil_iff.mpr (by intro b hb; simp [ht b hb])]
    · have hqa' : q a = false := by simpa using hqa
      have htail := ih hmono.2
      rcases h : findFirst q t with _ | i
      · have hfst : findFirst q (a :: t) = none := by
          simp [findFirst, hqa', h]
        rw [takeBefore_none hfst, List.filter_cons_of_pos (by simp [hqa'])]
        rw [takeBefore_none h] at htail
        rw [← htail]
      · have hfst : findFirst q (a :: t) = some (i + 1) := by
          simp [findFirst, hqa', h]
        rw [takeBefore_some hfst, List.take_succ_cons,
          List.filter_cons_of_pos (by simp [hqa'])]
        rw [takeBefore_some h] at htail
        rw [← htail]

/-! ## Claim C1: score-range semantics of `withSSRange` -/



theorem withSSRange_eq_scans (members : SSElems) (mn : Int) (mni : Bool)
    (mx : Int) (mxi : Bool) :
    withSSRange members mn mni mx mxi =
      takeBefore (fun m => maxScoreViol mx mxi m)
        (dropBefore (fun m => minScoreOK mn mni m) members) := by
  cases mni <;> cases mxi <;> rfl

theorem not_maxScoreViol (mx : Int) (mxi : Bool) (m : SSElem) :
    (!maxScoreViol mx mxi m) = maxScoreOK mx mxi m := by
  cases mxi
  · show (!decide (mx ≤ m.score)) = decide (m.score < mx)
    rw [← decide_not, decide_eq_decide]
    exact not_le
  · show (!decide (mx < m.score)) = decide (m.score ≤ mx)
    rw [← decide_not, decide_eq_decide]
    exact not_lt

theorem canonLE_score_le {a b : SSElem} (h : canonLE a b = true) :
    a.score ≤ b.score := by
  simp only [canonLE, Bool.or_eq_true, Bool.and_eq_true,
    decide_eq_true_eq] at h
  rcases h with h1 | ⟨h1, _⟩
  · omega
  · omega

theorem minScoreOK_mono {mn : Int} {mni : Bool} {a b : SSElem}
    (hab : a.score ≤ b.score) (ha : minScoreOK mn mni a = true) :
    minScoreOK mn mni b = true := by
  cases mni
  · have ha' : mn < a.score := by
      simpa [minScoreOK, decide_eq_true_eq] using ha
    show decide (mn < b.score) = true
    simp only [decide_eq_true_eq]
    omega
  · have ha' : mn ≤ a.score := by
      simpa [minScoreOK, decide_eq_true_eq] using ha
    show decide (mn ≤ b.score) = true
    simp only [decide_eq_true_eq]
    omega

theorem maxScoreViol_mono {mx : Int} {mxi : Bool} {a b : SSElem}
    (hab : a.score ≤ b.score) (ha : maxScoreViol mx mxi a = true) :
    maxScoreViol mx mxi b = true := by
  cases mxi
  · have ha' : mx ≤ a.score := by
      simpa [maxScoreViol, decide_eq_true_eq] using ha
    show decide (mx ≤ b.score) = true
    simp only [decide_eq_true_eq]
    omega
  · have ha' : mx < a.score := by
      simpa [maxScoreViol, decide_eq_true_eq] using ha
    show decide (mx < b.score) = true
    simp only [decide_eq_true_eq]
    omega

/-- **C1** (amended).  On a snapshot sorted in canonical order,
`withSSRange` returns exactly the elements whose scores satisfy both
bounds per the inclusivity flags, **provided** the snapshot is empty or at
least one element satisfies the minimum bound (the source's min-bound scan
leaves the sequence unchanged when no element satisfies it); the
completeness half — no element satisfying both bounds is excluded — holds
unconditionally. -/
theorem claim_C1 (members : SSElems) (mn : Int) (mni : Bool) (mx : Int)
    (mxi : Bool)
    (hsorted : members.Pairwise (fun a b => canonLE a b = true)) :
    ((members = [] ∨ ∃ m ∈ members, minScoreOK mn mni m = true) →
      withSSRange members mn mni mx mxi =
        members.filter
          (fun m => minScoreOK mn mni m && maxScoreOK mx mxi m)) ∧
    (∀ m ∈ members, minScoreOK mn mni m = true →
      maxScoreOK mx mxi m = true →
      m ∈ withSSRange members mn mni mx mxi) := by
  have hscore : members.Pairwise (fun a b => a.score ≤ b.score) :=
    hsorted.imp (fun h => canonLE_score_le h)
  have main : (members = [] ∨ ∃ m ∈ members, minScoreOK mn mni m = true) →
      withSSRange members mn mni mx mxi =
        members.filter
          (fun m => minScoreOK mn mni m && maxScoreOK mx mxi m) := by
    rintro (rfl | hex)
    · rw [withSSRange_eq_scans]; rfl
    · rw [withSSRange_eq_scans,
        dropBefore_eq_filter (hscore.imp (fun h => minScoreOK_mono h)) hex,
        takeBefore_eq_filter
          ((hscore.imp (fun h => maxScoreViol_mono h)).sublist
            (List.filter_sublist _)),
        List.filter_filter]
      refine List.filter_congr (fun m _ => ?_)
      rw [not_maxScoreViol, Bool.and_comm]
  refine ⟨main, fun m hm h1 h2 => ?_⟩
  rw [main (Or.inr ⟨m, hm, h1⟩)]
  exact List.mem_filter.mpr ⟨hm, by rw [h1, h2]; rfl⟩

/-- Witness for C1: a concrete sorted snapshot with an exclusive minimum
and inclusive maximum. -/
theorem claim_C1_witness :
    withSSRange [⟨"a", 1⟩, ⟨"b", 2⟩, ⟨"c", 3⟩] 2 false 3 true =
      List.filter (fun m => minScoreOK 2 false m && maxScoreOK 3 true m)
        [⟨"a", 1⟩, ⟨"b", 2⟩, ⟨"c", 3⟩] :=
  (claim_C1 [⟨"a", 1⟩, ⟨"b", 2⟩, ⟨"c", 3⟩] 2 false 3 true (by decide)).1
    (Or.inr (by decide))

/-- Counterexample to C1 as stated: on the sorted singleton snapshot
`[("a", 1)]` with range `[5, 10]` no element satisfies the minimum bound,
yet `withSSRange` returns the element, whose score violates the minimum
bound. -/
theorem claim_C1_counterexample :
    ([⟨"a", 1⟩] : SSElems).Pairwise (fun a b => canonLE a b = true) ∧
    (⟨"a", 1⟩ : SSElem) ∈ withSSRange [⟨"a", 1⟩] 5 true 10 true ∧
    minScoreOK 5 true ⟨"a", 1⟩ = false := by
  refine ⟨?_, ?_, ?_⟩ <;> decide

/-! ## Claim C5: lexicographic-range semantics of `withLexRange` -/

theorem char_eq_of_toNat_eq {c d : Char} (h : c.toNat = d.toNat) : c = d :=
  Char.eq_of_val_eq (UInt32.ext h)

theorem chListLT_trans {a b c : List Char} (h1 : chListLT a b = true)
    (h2 : chListLT b c = true) : chListLT a c = true := by
  induction a generalizing b c with
  | nil =>
    cases b with
    | nil => simp [chListLT] at h1
    | cons y ys =>
      cases c with
      | nil => simp [chListLT] at h2
      | cons z zs => rfl
  | cons x xs ih =>
    cases b with
    | nil => simp [chListLT] at h1
    | cons y ys =>
      cases c with
      | nil => simp [chListLT] at h2
      | cons z zs =>
        simp only [chListLT] at h1 h2 ⊢
        split_ifs at h1 h2 ⊢ <;>
          first
            | rfl
            | omega
            | exact ih h1 h2

theorem chListLT_cases (a b : List Char) :
    chListLT a b = true ∨ chListLT b a = true ∨ a = b := by
  induction a generalizing b with
  | nil =>
    cases b with
    | nil => exact Or.inr (Or.inr rfl)
    | cons y ys => exact Or.inl rfl
  | cons x xs ih =>
    cases b with
    | nil => exact Or.inr (Or.inl rfl)
    | cons y ys =>
      rcases Nat.lt_trichotomy x.toNat y.toNat with h | h | h
      · exact Or.inl (by simp [chListLT, h])
      · have hx : x = y := char_eq_of_toNat_eq h
        subst hx
        rcases ih ys with ht | ht | ht
        · exact Or.inl (by simp [chListLT, ht])
        · exact Or.inr (Or.inl (by simp [chListLT, ht]))
        · exact Or.inr (Or.inr (by rw [ht]))
      · exact Or.inr (Or.inl (by simp [chListLT, h]))

theorem strLE_trans {a b c : String} (h1 : strLE a b = true)
    (h2 : strLE b c = true) : strLE a c = true := by
  simp only [strLE, Bool.not_eq_true', Bool.not_eq_false] at h1 h2 ⊢
  by_contra hlt
  rw [Bool.not_eq_false] at hlt
  rcases chListLT_cases b.data c.data with h | h | h
  · rw [strLT] at *
    rw [chListLT_trans h hlt] at h1
    exact absurd h1 (by simp)
  · rw [strLT, h] at h2
    exact absurd h2 (by simp)
  · rw [strLT, ← h] at hlt
    rw [strLT, hlt] at h1
    exact absurd h1 (by simp)

theorem strLT_strLE_trans {a b c : String} (h1 : strLT a b = true)
    (h2 : strLE b c = true) : strLT a c = true := by
  simp only [strLE, Bool.not_eq_true', Bool.not_eq_false] at h2
  rcases chListLT_cases a.data c.data with h | h | h
  · exact h
  · rw [strLT] at *
    rw [chListLT_trans h h1] at h2
    exact absurd h2 (by simp)
  · rw [strLT] at *
    rw [← h] at h2
    rw [h2] at h1
    exact absurd h1 (by simp)



theorem lexMinStage_eq_filter {members : List String} {mn : String}
    {mni : Bool}
    (hsorted : members.Pairwise (fun a b => strLE a b = true))
    (hprov : members = [] ∨ mn = "-" ∨
      ∃ m ∈ members, lexMinOK mn mni m = true) :
    lexMinStage mn mni members = members.filter (lexMinOK mn mni) := by
  by_cases hmn : mn = "-"
  · rw [lexMinStage, if_pos hmn,
      List.filter_eq_self.mpr (fun m _ => by simp [lexMinOK, hmn])]
  · rcases hprov with rfl | h | hex
    · cases mni <;> rw [lexMinStage, if_neg hmn] <;> rfl
    · exact absurd h hmn
    · cases mni
      · have hex' : ∃ m ∈ members, strLT mn m = true := by
          rcases hex with ⟨m, hm, hok⟩
          exact ⟨m, hm, by simpa [lexMinOK, hmn] using hok⟩
        rw [lexMinStage, if_neg hmn]
        rw [dropBefore_eq_filter
          (hsorted.imp (fun hab h => strLT_strLE_trans h hab)) hex']
        exact List.filter_congr (fun m _ => by simp [lexMinOK, hmn])
      · have hex' : ∃ m ∈ members, strLE mn m = true := by
          rcases hex with ⟨m, hm, hok⟩
          exact ⟨m, hm, by simpa [lexMinOK, hmn] using hok⟩
        rw [lexMinStage, if_neg hmn]
        rw [dropBefore_eq_filter
          (hsorted.imp (fun hab h => strLE_trans h hab)) hex']
        exact List.filter_congr (fun m _ => by simp [lexMinOK, hmn])

theorem lexMaxStage_eq_filter {members : List String} {mx : String}
    {mxi : Bool}
    (hsorted : members.Pairwise (fun a b => strLE a b = true)) :
    lexMaxStage mx mxi members = members.filter (lexMaxOK mx mxi) := by
  by_cases hmx : mx = "+"
  · rw [lexMaxStage, if_pos hmx,
      List.filter_eq_self.mpr (fun m _ => by simp [lexMaxOK, hmx])]
  · cases mxi
    · calc lexMaxStage mx false members
          = takeBefore (fun m => strLE mx m) members := by
            rw [lexMaxStage, if_neg hmx]; rfl
        _ = members.filter (fun m => !strLE mx m) :=
            takeBefore_eq_filter
              (hsorted.imp (fun hab h => strLE_trans h hab))
        _ = members.filter (lexMaxOK mx false) := by
            refine List.filter_congr (fun m _ => ?_)
            simp only [lexMaxOK, if_neg hmx]
            rw [strLE, Bool.not_not]; rfl
    · calc lexMaxStage mx true members
          = takeBefore (fun m => strLT mx m) members := by
            rw [lexMaxStage, if_neg hmx]; rfl
        _ = members.filter (fun m => !strLT mx m) :=
            takeBefore_eq_filter
              (hsorted.imp (fun hab h => strLT_strLE_trans h hab))
        _ = members.filter (lexMaxOK mx true) := by
            refine List.filter_congr (fun m _ => ?_)
            simp only [lexMaxOK, if_neg hmx]
            rw [strLE]; rfl

/-- **C5** (amended).  On a lexicographically sorted member list,
`withLexRange` is empty whenever `max = "-"` or `min = "+"`, regardless of
the other bound; otherwise `min = "-"` imposes no lower bound,
`max = "+"` imposes no upper bound, and concrete bounds keep exactly the
members satisfying them per their inclusivity flags, **provided** the list
is empty, the minimum is unbounded, or at least one member satisfies the
minimum bound (the source's min-bound scan leaves the list unchanged when
no member satisfies it). -/
theorem claim_C5 (members : List String) (mn : String) (mni : Bool)
    (mx : String) (mxi : Bool)
    (hsorted : members.Pairwise (fun a b => strLE a b = true)) :
    ((mx = "-" ∨ mn = "+") → withLexRange members mn mni mx mxi = []) ∧
    (mx ≠ "-" → mn ≠ "+" →
      (members = [] ∨ mn = "-" ∨ ∃ m ∈ members, lexMinOK mn mni m = true) →
      withLexRange members mn mni mx mxi =
        members.filter (fun m => lexMinOK mn mni m && lexMaxOK mx mxi m)) := by
  constructor
  · intro h
    rcases h with h | h <;> simp [withLexRange, h]
  · intro hmx hmn hprov
    rw [withLexRange, if_neg (by simp [hmx, hmn])]
    rw [lexMinStage_eq_filter hsorted hprov,
      lexMaxStage_eq_filter (hsorted.sublist (List.filter_sublist _)),
      List.filter_filter]
    exact List.filter_congr (fun m _ => Bool.and_comm _ _)

/-- Witness for C5: the `max = "-"` short-circuit and a fully concrete
bounded range on a sorted three-member list. -/
theorem claim_C5_witness :
    withLexRange ["a", "b", "c"] "x" true "-" false = [] ∧
    withLexRange ["a", "b", "c"] "b" true "c" true =
      List.filter (fun m => lexMinOK "b" true m && lexMaxOK "c" true m)
        ["a", "b", "c"] :=
  ⟨(claim_C5 ["a", "b", "c"] "x" true "-" false (by decide)).1 (Or.inl rfl),
   (claim_C5 ["a", "b", "c"] "b" true "c" true (by decide)).2
     (by decide) (by decide) (Or.inr (Or.inr (by decide)))⟩

/-- Counterexample to C5 as stated: on the sorted list `["a"]` with the
concrete inclusive minimum bound `"b"` and unbounded maximum, no member
satisfies the minimum bound, yet `withLexRange` returns `"a"`, which
violates it. -/
theorem claim_C5_counterexample :
    (["a"] : List String).Pairwise (fun a b => strLE a b = true) ∧
    "a" ∈ withLexRange ["a"] "b" true "+" false ∧
    strLE "b" "a" = false := by
  refine ⟨?_, ?_, ?_⟩ <;> decide

/-! ## Claim C8: the empty-string score bound -/

/-- **C8** (amended).  An empty-string score bound is accepted without
error and parses as the value `0` with the exclusive flag — not as "no
constraint".  Used as a minimum bound it therefore behaves as the strict
bound `score > 0`; on a set whose members all have negative scores no
element satisfies it, the source's min-bound scan leaves the sequence
unchanged, and the set is still fully matched on the min side. -/
theorem claim_C8 (members : SSElems) (mx : Int) (mxi : Bool)
    (hsorted : members.Pairwise (fun a b => canonLE a b = true))
    (hneg : ∀ m ∈ members, m.score < 0) :
    parseFloatRange "" = some (0, false) ∧
    withSSRange members 0 false mx mxi =
      members.filter (fun m => maxScoreOK mx mxi m) := by
  refine ⟨rfl, ?_⟩
  rw [withSSRange_eq_scans]
  have hnone : findFirst (fun m => minScoreOK 0 false m) members = none := by
    refine findFirst_eq_none.mpr (fun m hm => ?_)
    have := hneg m hm
    simp only [minScoreOK, if_neg (by simp : ¬false = true),
      decide_eq_false_iff_not]
    omega
  rw [dropBefore_none hnone,
    takeBefore_eq_filter
      ((hsorted.imp (fun h => canonLE_score_le h)).imp
        (fun h => maxScoreViol_mono h))]
  exact List.filter_congr (fun m _ => not_maxScoreViol mx mxi m)

/-- Witness for C8: an all-negative two-member set with an inclusive
maximum bound. -/
theorem claim_C8_witness :
    parseFloatRange "" = some (0, false) ∧
    withSSRange [⟨"a", -3⟩, ⟨"b", -1⟩] 0 false 10 true =
      List.filter (fun m => maxScoreOK 10 true m) [⟨"a", -3⟩, ⟨"b", -1⟩] :=
  claim_C8 [⟨"a", -3⟩, ⟨"b", -1⟩] 10 true (by decide) (by decide)

/-- Counterexample to C8 as stated: on the set `{a ↦ -5, b ↦ 3}` both
members satisfy the maximum bound `10`, so a truly unconstrained minimum
would make ZCOUNT return 2; with the empty-string minimum bound the code
returns 1, because the bound acts as `score > 0` and drops the
negative-score member. -/
theorem claim_C8_counterexample :
    parseFloatRange "" = some (0, false) ∧
    cmdZcount ["z", "", "10"] [("z", RValue.zsetVal [⟨"a", -5⟩, ⟨"b", 3⟩])] =
      .reply (.ints 1) [("z", RValue.zsetVal [⟨"a", -5⟩, ⟨"b", 3⟩])] ∧
    ((-5 : Int) ≤ 10 ∧ (3 : Int) ≤ 10) := by
  refine ⟨rfl, by decide, by decide⟩

/-! ## Claim C7: LIMIT offset/count semantics -/

/-- **C7**.  The LIMIT application of ZRANGEBYSCORE, ZREVRANGEBYSCORE and
ZRANGEBYLEX on the post-range-filter sequence: a negative offset empties
the result; an offset at or beyond the filtered length empties the result;
otherwise the first `offset` elements are dropped and a non-negative count
truncates to at most `count` elements, while a negative count keeps
everything after the offset. -/
theorem claim_C7 {α : Type} (l : List α) (off cnt : Int) :
    (off < 0 → applyLimit off cnt l = []) ∧
    (0 ≤ off → (l.length : Int) ≤ off → applyLimit off cnt l = []) ∧
    (0 ≤ off → off < (l.length : Int) → 0 ≤ cnt →
      applyLimit off cnt l = (l.drop off.toNat).take cnt.toNat) ∧
    (0 ≤ off → off < (l.length : Int) → cnt < 0 →
      applyLimit off cnt l = l.drop off.toNat) := by
  refine ⟨fun h => by rw [applyLimit, if_pos h], fun h1 h2 => ?_,
    fun h1 h2 h3 => ?_, fun h1 h2 h3 => ?_⟩
  · rw [applyLimit, if_neg (by omega)]
    simp only [if_neg (not_lt.mpr h2)]
    by_cases hc : (0 : Int) ≤ cnt
    · rw [if_pos hc]
      by_cases hcl : (cnt : Int) < (([] : List α).length : Int)
      · rw [if_pos hcl, List.take_nil]
      · rw [if_neg hcl]
    · rw [if_neg hc]
  · rw [applyLimit, if_neg (by omega)]
    simp only [if_pos h2, if_pos h3]
    by_cases hcl : (cnt : Int) < ((l.drop off.toNat).length : Int)
    · rw [if_pos hcl]
    · rw [if_neg hcl, List.take_of_length_le]
      simp only [List.length_drop] at hcl ⊢
      omega
  · rw [applyLimit, if_neg (by omega)]
    simp only [if_pos h2, if_neg (not_le.mpr h3)]

/-- Witness for C7: all four limit regimes on a three-element list. -/
theorem claim_C7_witness :
    applyLimit (-1) 2 ["a", "b", "c"] = [] ∧
    applyLimit 5 2 ["a", "b", "c"] = [] ∧
    applyLimit 1 1 ["a", "b", "c"] = (["a", "b", "c"].drop 1).take 1 ∧
    applyLimit 1 (-1) ["a", "b", "c"] = ["a", "b", "c"].drop 1 :=
  ⟨(claim_C7 ["a", "b", "c"] (-1) 2).1 (by decide),
   (claim_C7 ["a", "b", "c"] 5 2).2.1 (by decide) (by decide),
   (claim_C7 ["a", "b", "c"] 1 1).2.2.1 (by decide) (by decide) (by decide),
   (claim_C7 ["a", "b", "c"] 1 (-1)).2.2.2 (by decide) (by decide)
     (by decide)⟩

/-! ## Claim C2: the dirty flag on malformed commands -/

/-- **C2** (code bug).  Three malformed invocations on which the source
writes a syntax error and never enters the closure but does **not** call
`setDirty`, contradicting the claim that every malformed command sets the
dirty flag: ZRANGE with a fifth argument (`cmd_cluster.go` line 238 has no
`setDirty`), and an incomplete trailing LIMIT clause in ZRANGEBYLEX (line
315) and ZRANGEBYSCORE (line 416).  Every sibling error path in the same
handlers does call `setDirty`. -/
theorem claim_C2_dirty_not_set : ∀ db : DB,
    cmdZrange ["k", "0", "1", "withscores", "x"] db =
      .early false msgSyntaxError ∧
    cmdZrangebylex ["k", "[a", "[b", "LIMIT", "1"] db =
      .early false msgSyntaxError ∧
    cmdZrangebyscore ["k", "1", "2", "LIMIT", "1"] db =
      .early false msgSyntaxError :=
  fun _ => ⟨rfl, rfl, rfl⟩

/-! ## Claim C10: the cluster stubs -/

/-- **C10**.  CLUSTER SLOTS, CLUSTER KEYSLOT and CLUSTER NODES reply with
fixed placeholder data independent of their arguments and of the store's
contents (SLOTS depends only on the server's address), and CLUSTER KEYSLOT
writes the integer 163 for every key argument. -/
theorem claim_C10 : ∀ (srvIP : String) (srvPort : Int)
    (args args2 : List String) (db db2 : DB) (k : String),
    cmdClusterSlots srvIP srvPort args db =
      cmdClusterSlots srvIP srvPort args2 db2 ∧
    cmdClusterKeySlot args db = [.oint 163] ∧
    cmdClusterNodes args db = cmdClusterNodes args2 db2 ∧
    cmdCluster srvIP srvPort ["KEYSLOT", k] db = .events [.oint 163] :=
  fun _ _ _ _ _ _ _ => ⟨rfl, rfl, rfl, rfl⟩

/-! ## Claim C3: missing keys get per-command empty results -/

/-- **C3**.  Every sorted-set read/remove command invoked with well-formed
arguments on a non-existent key replies with that command's specific empty
result — integer 0 for ZCARD/ZCOUNT/ZREM, nil for ZSCORE/ZRANK/ZREVRANK,
empty array for the four range commands — from inside the closure, leaving
the database unchanged and never producing a wrong-type error. -/
theorem claim_C3 (db : DB) (key mem : String) (mems : List String)
    (sS eS mnS mxS lmnS lmxS : String) (si ei mn mx : Int)
    (mni mxi lmni lmxi : Bool) (lmn lmx : String)
    (hkey : dbExists db key = false)
    (hsi : parseInt sS = some si) (hei : parseInt eS = some ei)
    (hmn : parseFloatRange mnS = some (mn, mni))
    (hmx : parseFloatRange mxS = some (mx, mxi))
    (hlmn : parseLexrange lmnS = some (lmn, lmni))
    (hlmx : parseLexrange lmxS = some (lmx, lmxi)) :
    cmdZcard [key] db = .reply (.ints 0) db ∧
    cmdZcount [key, mnS, mxS] db = .reply (.ints 0) db ∧
    cmdZrem (key :: mem :: mems) db = .reply (.ints 0) db ∧
    cmdZscore [key, mem] db = .reply .nil db ∧
    cmdZrank [key, mem] db = .reply .nil db ∧
    cmdZrevrank [key, mem] db = .reply .nil db ∧
    cmdZrange [key, sS, eS] db = .reply (.arr []) db ∧
    cmdZrevrange [key, sS, eS] db = .reply (.arr []) db ∧
    cmdZrangebyscore [key, mnS, mxS] db = .reply (.arr []) db ∧
    cmdZrevrangebyscore [key, mnS, mxS] db = .reply (.arr []) db ∧
    cmdZrangebylex [key, lmnS, lmxS] db = .reply (.arr []) db := by
  refine ⟨?_, ?_, ?_, ?_, ?_, ?_, ?_, ?_, ?_, ?_, ?_⟩
  · simp [cmdZcard, hkey]
  · simp [cmdZcount, hmn, hmx, hkey]
  · simp [cmdZrem, hkey]
  · simp [cmdZscore, hkey]
  · simp [cmdZrank, makeCmdZrank, hkey]
  · simp [cmdZrevrank, makeCmdZrank, hkey]
  · simp [cmdZrange, makeCmdZrange, hsi, hei, zrangeRun, hkey]
  · simp [cmdZrevrange, makeCmdZrange, hsi, hei, zrangeRun, hkey]
  · simp [cmdZrangebyscore, makeCmdZrangebyscore, hmn, hmx, parseOptsBS,
      hkey]
  · simp [cmdZrevrangebyscore, makeCmdZrangebyscore, hmn, hmx, parseOptsBS,
      hkey]
  · simp [cmdZrangebylex, hlmn, hlmx, parseOptsLex, hkey]

/-- Witness for C3: a database holding one unrelated key, queried at the
missing key `"nope"` with concrete well-formed arguments. -/
theorem claim_C3_witness :
    cmdZcard ["nope"] [("k", RValue.strVal "v")] =
      .reply (.ints 0) [("k", RValue.strVal "v")] ∧
    cmdZcount ["nope", "1", "2"] [("k", RValue.strVal "v")] =
      .reply (.ints 0) [("k", RValue.strVal "v")] ∧
    cmdZrem ["nope", "m"] [("k", RValue.strVal "v")] =
      .reply (.ints 0) [("k", RValue.strVal "v")] ∧
    cmdZscore ["nope", "m"] [("k", RValue.strVal "v")] =
      .reply .nil [("k", RValue.strVal "v")] ∧
    cmdZrank ["nope", "m"] [("k", RValue.strVal "v")] =
      .reply .nil [("k", RValue.strVal "v")] ∧
    cmdZrevrank ["nope", "m"] [("k", RValue.strVal "v")] =
      .reply .nil [("k", RValue.strVal "v")] ∧
    cmdZrange ["nope", "0", "-1"] [("k", RValue.strVal "v")] =
      .reply (.arr []) [("k", RValue.strVal "v")] ∧
    cmdZrevrange ["nope", "0", "-1"] [("k", RValue.strVal "v")] =
      .reply (.arr []) [("k", RValue.strVal "v")] ∧
    cmdZrangebyscore ["nope", "1", "2"] [("k", RValue.strVal "v")] =
      .reply (.arr []) [("k", RValue.strVal "v")] ∧
    cmdZrevrangebyscore ["nope", "1", "2"] [("k", RValue.strVal "v")] =
      .reply (.arr []) [("k", RValue.strVal "v")] ∧
    cmdZrangebylex ["nope", "[a", "[b"] [("k", RValue.strVal "v")] =
      .reply (.arr []) [("k", RValue.strVal "v")] :=
  claim_C3 [("k", RValue.strVal "v")] "nope" "m" [] "0" "-1" "1" "2"
    "[a" "[b" 0 (-1) 1 2 true true true true "a" "b" rfl rfl rfl rfl rfl
    rfl rfl

/-! ## Claim C4: wrong-type keys get the type error from inside the closure -/

/-- **C4**.  Every sorted-set command (ZADD included) invoked with
well-formed arguments on a key that exists but is not an ordered set
replies with the wrong-type error from inside the atomic section — the
result is a `reply` (the closure was entered and `setDirty` was not
called) — and leaves the database unchanged. -/
theorem claim_C4 (db : DB) (key mem scS : String) (sc : Int)
    (sS eS mnS mxS lmnS lmxS : String) (si ei mn mx : Int)
    (mni mxi lmni lmxi : Bool) (lmn lmx : String)
    (hkey : dbExists db key = true) (hty : dbType db key ≠ "zset")
    (hsc : parseScore scS = some sc)
    (hsi : parseInt sS = some si) (hei : parseInt eS = some ei)
    (hmn : parseFloatRange mnS = some (mn, mni))
    (hmx : parseFloatRange mxS = some (mx, mxi))
    (hlmn : parseLexrange lmnS = some (lmn, lmni))
    (hlmx : parseLexrange lmxS = some (lmx, lmxi)) :
    cmdZadd [key, scS, mem] db = .reply (.err msgWrongType) db ∧
    cmdZcard [key] db = .reply (.err msgWrongType) db ∧
    cmdZcount [key, mnS, mxS] db = .reply (.err msgWrongType) db ∧
    cmdZrem [key, mem] db = .reply (.err msgWrongType) db ∧
    cmdZscore [key, mem] db = .reply (.err msgWrongType) db ∧
    cmdZrank [key, mem] db = .reply (.err msgWrongType) db ∧
    cmdZrevrank [key, mem] db = .reply (.err msgWrongType) db ∧
    cmdZrange [key, sS, eS] db = .reply (.err msgWrongType) db ∧
    cmdZrevrange [key, sS, eS] db = .reply (.err msgWrongType) db ∧
    cmdZrangebyscore [key, mnS, mxS] db = .reply (.err msgWrongType) db ∧
    cmdZrevrangebyscore [key, mnS, mxS] db = .reply (.err msgWrongType) db ∧
    cmdZrangebylex [key, lmnS, lmxS] db = .reply (.err msgWrongType) db := by
  refine ⟨?_, ?_, ?_, ?_, ?_, ?_, ?_, ?_, ?_, ?_, ?_, ?_⟩
  · simp [cmdZadd, parsePairs, hsc, hkey, hty]
  · simp [cmdZcard, hkey, hty]
  · simp [cmdZcount, hmn, hmx, hkey, hty]
  · simp [cmdZrem, hkey, hty]
  · simp [cmdZscore, hkey, hty]
  · simp [cmdZrank, makeCmdZrank, hkey, hty]
  · simp [cmdZrevrank, makeCmdZrank, hkey, hty]
  · simp [cmdZrange, makeCmdZrange, hsi, hei, zrangeRun, hkey, hty]
  · simp [cmdZrevrange, makeCmdZrange, hsi, hei, zrangeRun, hkey, hty]
  · simp [cmdZrangebyscore, makeCmdZrangebyscore, hmn, hmx, parseOptsBS,
      hkey, hty]
  · simp [cmdZrevrangebyscore, makeCmdZrangebyscore, hmn, hmx, parseOptsBS,
      hkey, hty]
  · simp [cmdZrangebylex, hlmn, hlmx, parseOptsLex, hkey, hty]

/-- Witness for C4: a database whose key `"s"` holds a plain string. -/
theorem claim_C4_witness :
    cmdZadd ["s", "1", "m"] [("s", RValue.strVal "v")] =
      .reply (.err msgWrongType) [("s", RValue.strVal "v")] ∧
    cmdZcard ["s"] [("s", RValue.strVal "v")] =
      .reply (.err msgWrongType) [("s", RValue.strVal "v")] ∧
    cmdZcount ["s", "1", "2"] [("s", RValue.strVal "v")] =
      .reply (.err msgWrongType) [("s", RValue.strVal "v")] ∧
    cmdZrem ["s", "m"] [("s", RValue.strVal "v")] =
      .reply (.err msgWrongType) [("s", RValue.strVal "v")] ∧
    cmdZscore ["s", "m"] [("s", RValue.strVal "v")] =
      .reply (.err msgWrongType) [("s", RValue.strVal "v")] ∧
    cmdZrank ["s", "m"] [("s", RValue.strVal "v")] =
      .reply (.err msgWrongType) [("s", RValue.strVal "v")] ∧
    cmdZrevrank ["s", "m"] [("s", RValue.strVal "v")] =
      .reply (.err msgWrongType) [("s", RValue.strVal "v")] ∧
    cmdZrange ["s", "0", "-1"] [("s", RValue.strVal "v")] =
      .reply (.err msgWrongType) [("s", RValue.strVal "v")] ∧
    cmdZrevrange ["s", "0", "-1"] [("s", RValue.strVal "v")] =
      .reply (.err msgWrongType) [("s", RValue.strVal "v")] ∧
    cmdZrangebyscore ["s", "1", "2"] [("s", RValue.strVal "v")] =
      .reply (.err msgWrongType) [("s", RValue.strVal "v")] ∧
    cmdZrevrangebyscore ["s", "1", "2"] [("s", RValue.strVal "v")] =
      .reply (.err msgWrongType) [("s", RValue.strVal "v")] ∧
    cmdZrangebylex ["s", "[a", "[b"] [("s", RValue.strVal "v")] =
      .reply (.err msgWrongType) [("s", RValue.strVal "v")] :=
  claim_C4 [("s", RValue.strVal "v")] "s" "m" "1" 1 "0" "-1" "1" "2"
    "[a" "[b" 0 (-1) 1 2 true true true true "a" "b" rfl (by decide) rfl
    rfl rfl rfl rfl rfl rfl

/-! ## Claim C6: reverse-range commands are reverses of their ascending
counterparts -/



theorem redisRange_nat (l s e : Nat) (hse : s ≤ e) (hel : e < l) :
    redisRange l (s : Int) (e : Int) = (s, e + 1) := by
  simp only [redisRange]
  split_ifs <;>
    first
      | (exfalso; omega)
      | (rw [Prod.mk.injEq]; constructor <;> omega)

theorem reverse_slice (l : List α) (s e : Nat) (hse : s ≤ e)
    (hel : e < l.length) :
    (l.reverse.drop s).take (e + 1 - s) =
      ((l.drop (l.length - 1 - e)).take (e + 1 - s)).reverse := by
  have hs : l.reverse.drop s = (l.take (l.length - s)).reverse := by
    have h := @List.reverse_take α l (l.length - s)
    rw [show l.length - (l.length - s) = s from by omega] at h
    exact h.symm
  rw [hs, List.take_reverse, List.length_take]
  rw [show min (l.length - s) l.length - (e + 1 - s) = l.length - 1 - e
    from by omega]
  rw [List.drop_take]
  rw [show l.length - s - (l.length - 1 - e) = e + 1 - s from by omega]

/-- **C6**.  (a) For every database, key and pair of bound tokens,
ZREVRANGEBYSCORE — which receives `(max, min)` in Redis argument order,
swaps the parsed `(min, minIncl)`/`(max, maxIncl)` pairs before filtering
and reverses the filtered sequence — replies with exactly the reverse of
the ZRANGEBYSCORE reply for the same logical bounds; this holds for every
outcome (errors and missing keys included, where both replies coincide).
(b) For every in-bounds rank window `s ≤ e` on a sorted set, the
ZREVRANGE closure's element sequence is the reverse of the ZRANGE
closure's sequence at the mirrored window `(n-1-e, n-1-s)`. -/
theorem claim_C6 :
    (∀ (db : DB) (key mnS mxS : String),
      cmdZrevrangebyscore [key, mxS, mnS] db =
        hrevArr (cmdZrangebyscore [key, mnS, mxS] db)) ∧
    (∀ (db : DB) (key : String) (s e : Nat), s ≤ e →
      e < (zmembersOf db key).length →
      zrangeRun true db key (s : Int) (e : Int) false =
        revReply (zrangeRun false db key
          (((zmembersOf db key).length - 1 - e : Nat) : Int)
          (((zmembersOf db key).length - 1 - s : Nat) : Int) false)) := by
  constructor
  · intro db key mnS mxS
    rcases h1 : parseFloatRange mnS with _ | ⟨mn, mni⟩ <;>
      rcases h2 : parseFloatRange mxS with _ | ⟨mx, mxi⟩ <;>
      simp only [cmdZrevrangebyscore, cmdZrangebyscore,
        makeCmdZrangebyscore, h1, h2, parseOptsBS, List.length_cons,
        List.length_nil, hrevArr, revReply]
    · rfl
    · rfl
    · rfl
    · cases hex : dbExists db key with
      | false => simp [hex, hrevArr, revReply]
      | true =>
        by_cases hty : dbType db key = "zset"
        · simp [hex, hty, hrevArr, revReply, List.map_reverse]
        · simp [hex, hty, hrevArr, revReply]
  · intro db key s e hse hel
    cases hex : dbExists db key with
    | false => simp [zrangeRun, hex, revReply]
    | true =>
      by_cases hty : dbType db key = "zset"
      · have hn : 0 < (zmembersOf db key).length := by omega
        simp only [zrangeRun, hex, hty, Bool.not_true, Bool.false_eq_true,
          if_false, decide_True, not_true_eq_false, decide_False,
          Bool.not_false, if_true, List.length_reverse]
        rw [redisRange_nat _ _ _ hse hel,
          redisRange_nat _ _ _ (by omega : (zmembersOf db key).length - 1 -
            e ≤ (zmembersOf db key).length - 1 - s) (by omega)]
        simp only [revReply]
        rw [show (zmembersOf db key).length - 1 - s + 1 -
          ((zmembersOf db key).length - 1 - e) = e + 1 - s from by omega]
        exact congrArg Reply.arr
          (reverse_slice (zmembersOf db key) s e hse hel)
      · simp [zrangeRun, hex, hty, revReply]

/-- Witness for C6: the three-member set `{a ↦ 1, b ↦ 2, c ↦ 3}`; the
by-score pair `((1, 3]` and the rank window `[0, 1]` (mirrored to
`[1, 2]`). -/
theorem claim_C6_witness :
    cmdZrevrangebyscore ["z", "3", "(1"]
        [("z", RValue.zsetVal [⟨"a", 1⟩, ⟨"b", 2⟩, ⟨"c", 3⟩])] =
      hrevArr (cmdZrangebyscore ["z", "(1", "3"]
        [("z", RValue.zsetVal [⟨"a", 1⟩, ⟨"b", 2⟩, ⟨"c", 3⟩])]) ∧
    zrangeRun true [("z", RValue.zsetVal [⟨"a", 1⟩, ⟨"b", 2⟩, ⟨"c", 3⟩])]
        "z" 0 1 false =
      revReply (zrangeRun false
        [("z", RValue.zsetVal [⟨"a", 1⟩, ⟨"b", 2⟩, ⟨"c", 3⟩])]
        "z" 1 2 false) :=
  ⟨claim_C6.1 [("z", RValue.zsetVal [⟨"a", 1⟩, ⟨"b", 2⟩, ⟨"c", 3⟩])]
      "z" "(1" "3",
   claim_C6.2 [("z", RValue.zsetVal [⟨"a", 1⟩, ⟨"b", 2⟩, ⟨"c", 3⟩])]
      "z" 0 1 (by decide) (by decide)⟩

/-! ## Claim C9: ZADD with duplicate members in one call -/



theorem mapAssign_cons_pos {p : String × Int} {rest : List (String × Int)}
    {k : String} {v : Int} (hp : p.1 = k) :
    mapAssign (p :: rest) k v = (k, v) :: rest := by
  rw [mapAssign, if_pos hp]

theorem mapAssign_cons_neg {p : String × Int} {rest : List (String × Int)}
    {k : String} {v : Int} (hp : ¬p.1 = k) :
    mapAssign (p :: rest) k v = p :: mapAssign rest k v := by
  rw [mapAssign, if_neg hp]

theorem alookup_mapAssign_self (m : List (String × Int)) (k : String)
    (v : Int) : alookup (mapAssign m k v) k = some v := by
  induction m with
  | nil => simp [mapAssign, alookup]
  | cons p rest ih =>
    by_cases hp : p.1 = k
    · simp [mapAssign, hp, alookup]
    · simp only [mapAssign, if_neg hp, alookup] at ih ⊢
      rw [List.find?_cons_of_neg _ (by simp [hp])]
      exact ih

theorem alookup_mapAssign_other {m : List (String × Int)} {k k2 : String}
    (v : Int) (hne : k2 ≠ k) :
    alookup (mapAssign m k v) k2 = alookup m k2 := by
  induction m with
  | nil =>
    have h1 : ¬k = k2 := fun h => hne h.symm
    rw [mapAssign, alookup, List.find?_cons_of_neg _ (by simp [h1])]
    rfl
  | cons p rest ih =>
    by_cases hp : p.1 = k
    · have h1 : ¬k = k2 := fun h => hne h.symm
      have h2 : ¬p.1 = k2 := by rw [hp]; exact h1
      simp only [mapAssign, if_pos hp, alookup] at ih ⊢
      rw [List.find?_cons_of_neg _ (by simp [h1]),
        List.find?_cons_of_neg _ (by simp [h2])]
    · simp only [mapAssign, if_neg hp, alookup] at ih ⊢
      by_cases h2 : p.1 = k2
      · rw [List.find?_cons_of_pos _ (by simp [h2]),
          List.find?_cons_of_pos _ (by simp [h2])]
      · rw [List.find?_cons_of_neg _ (by simp [h2]),
          List.find?_cons_of_neg _ (by simp [h2])]
        exact ih

theorem mem_keys_mapAssign {m : List (String × Int)} {k x : String}
    {v : Int} :
    x ∈ (mapAssign m k v).map Prod.fst ↔ x = k ∨ x ∈ m.map Prod.fst := by
  induction m with
  | nil => simp [mapAssign]
  | cons p rest ih =>
    by_cases hp : p.1 = k
    · rw [mapAssign_cons_pos hp]
      simp only [List.map_cons, List.mem_cons]
      constructor
      · rintro (h | h)
        · exact Or.inl h
        · exact Or.inr (Or.inr h)
      · rintro (h | h | h)
        · exact Or.inl h
        · rw [hp] at h; exact Or.inl h
        · exact Or.inr h
    · rw [mapAssign_cons_neg hp]
      simp only [List.map_cons, List.mem_cons, ih]
      tauto

theorem nodup_keys_mapAssign {m : List (String × Int)} {k : String}
    {v : Int} (h : (m.map Prod.fst).Nodup) :
    ((mapAssign m k v).map Prod.fst).Nodup := by
  induction m with
  | nil => simp [mapAssign]
  | cons p rest ih =>
    rw [List.map_cons, List.nodup_cons] at h
    by_cases hp : p.1 = k
    · rw [mapAssign_cons_pos hp]
      simp only [List.map_cons, List.nodup_cons]
      exact ⟨by rw [← hp]; exact h.1, h.2⟩
    · rw [mapAssign_cons_neg hp]
      simp only [List.map_cons, List.nodup_cons]
      refine ⟨fun hmem => ?_, ih h.2⟩
      rcases mem_keys_mapAssign.mp hmem with h2 | h2
      · exact hp h2
      · exact h.1 h2

theorem alookup_buildElems (ps : List (Int × String))
    (m0 : List (String × Int)) (mem : String) :
    alookup (buildElems ps m0) mem =
      match lastScore ps mem with
      | some v => some v
      | none => alookup m0 mem := by
  induction ps generalizing m0 with
  | nil => rfl
  | cons p rest ih =>
    obtain ⟨sc, m⟩ := p
    rw [buildElems, ih, lastScore]
    cases hls : lastScore rest mem with
    | some v => rfl
    | none =>
      by_cases hm : m = mem
      · subst hm
        simp [alookup_mapAssign_self]
      · simp only [if_neg hm]
        exact alookup_mapAssign_other _ (fun h => hm h.symm)

theorem nodup_keys_buildElems (ps : List (Int × String))
    (m0 : List (String × Int)) (h : (m0.map Prod.fst).Nodup) :
    ((buildElems ps m0).map Prod.fst).Nodup := by
  induction ps generalizing m0 with
  | nil => exact h
  | cons p rest ih =>
    obtain ⟨sc, m⟩ := p
    exact ih _ (nodup_keys_mapAssign h)

theorem memberScore_zaddElem_self (z : SSElems) (s : Int) (m : String) :
    memberScore (zaddElem z s m).1 m = some s := by
  induction z with
  | nil => simp [zaddElem, memberScore]
  | cons e rest ih =>
    by_cases he : e.member = m
    · simp [zaddElem, he, memberScore]
    · simp only [zaddElem, if_neg he, memberScore] at ih ⊢
      rw [List.find?_cons_of_neg _ (by simp [he])]
      exact ih

theorem memberScore_zaddElem_other {z : SSElems} {s : Int} {m k : String}
    (hne : k ≠ m) : memberScore (zaddElem z s m).1 k = memberScore z k := by
  induction z with
  | nil =>
    have h1 : ¬m = k := fun h => hne h.symm
    simp [zaddElem, memberScore, h1]
  | cons e rest ih =>
    by_cases he : e.member = m
    · have h1 : ¬m = k := fun h => hne h.symm
      have h2 : ¬e.member = k := by rw [he]; exact h1
      simp only [zaddElem, if_pos he, memberScore] at ih ⊢
      rw [List.find?_cons_of_neg _ (by simp [h1]),
        List.find?_cons_of_neg _ (by simp [h2])]
    · simp only [zaddElem, if_neg he, memberScore] at ih ⊢
      by_cases h2 : e.member = k
      · rw [List.find?_cons_of_pos _ (by simp [h2]),
          List.find?_cons_of_pos _ (by simp [h2])]
      · rw [List.find?_cons_of_neg _ (by simp [h2]),
          List.find?_cons_of_neg _ (by simp [h2])]
        exact ih

theorem zaddElem_snd (z : SSElems) (s : Int) (m : String) :
    (zaddElem z s m).2 = !hasMem z m := by
  induction z with
  | nil => rfl
  | cons e rest ih =>
    by_cases he : e.member = m
    · simp [zaddElem, he, hasMem]
    · simp [zaddElem, he, hasMem, List.any_cons] at ih ⊢
      exact ih

theorem hasMem_zaddElem_other {z : SSElems} {s : Int} {m k : String}
    (hne : k ≠ m) : hasMem (zaddElem z s m).1 k = hasMem z k := by
  induction z with
  | nil =>
    have h1 : ¬m = k := fun h => hne h.symm
    simp [zaddElem, hasMem, h1]
  | cons e rest ih =>
    by_cases he : e.member = m
    · have h1 : ¬m = k := fun h => hne h.symm
      have h2 : ¬e.member = k := by rw [he]; exact h1
      simp [zaddElem, if_pos he, hasMem, List.any_cons, h1, h2]
    · simp only [zaddElem, if_neg he, hasMem, List.any_cons] at ih ⊢
      rw [ih]

theorem dbLookup_dbSet_self (db : DB) (k : String) (v : RValue) :
    dbLookup (dbSet db k v) k = some v := by
  induction db with
  | nil => simp [dbSet, dbLookup]
  | cons p rest ih =>
    by_cases hp : p.1 = k
    · simp [dbSet, hp, dbLookup]
    · simp only [dbSet, if_neg hp, dbLookup] at ih ⊢
      rw [List.find?_cons_of_neg _ (by simp [hp])]
      exact ih

theorem zsetOf_dbZadd (db : DB) (k : String) (s : Int) (m : String) :
    zsetOf (dbZadd db k s m).1 k = (zaddElem (zsetOf db k) s m).1 := by
  simp [dbZadd, zsetOf, dbLookup_dbSet_self]

theorem dbZadd_snd (db : DB) (k : String) (s : Int) (m : String) :
    (dbZadd db k s m).2 = !hasMem (zsetOf db k) m := by
  simp [dbZadd, zaddElem_snd]

theorem foldZadd_cons (db : DB) (k m : String) (s : Int)
    (rest : List (String × Int)) :
    foldZadd db k ((m, s) :: rest) =
      ((foldZadd (dbZadd db k s m).1 k rest).1,
       (if (dbZadd db k s m).2 then 1 else 0) +
         (foldZadd (dbZadd db k s m).1 k rest).2) := rfl

theorem foldZadd_score_untouched (k : String) :
    ∀ (elems : List (String × Int)) (db : DB) (mem : String),
      mem ∉ elems.map Prod.fst →
      memberScore (zsetOf (foldZadd db k elems).1 k) mem =
        memberScore (zsetOf db k) mem := by
  intro elems
  induction elems with
  | nil => intro db mem _; rfl
  | cons p rest ih =>
    intro db mem hmem
    obtain ⟨m, s⟩ := p
    simp only [List.map_cons, List.mem_cons, not_or] at hmem
    rw [foldZadd_cons]
    rw [ih _ _ hmem.2, zsetOf_dbZadd, memberScore_zaddElem_other hmem.1]

theorem foldZadd_score (k : String) :
    ∀ (elems : List (String × Int)) (db : DB) (mem : String) (sc : Int),
      (elems.map Prod.fst).Nodup →
      alookup elems mem = some sc →
      memberScore (zsetOf (foldZadd db k elems).1 k) mem = some sc := by
  intro elems
  induction elems with
  | nil => intro db mem sc _ hal; simp [alookup] at hal
  | cons p rest ih =>
    intro db mem sc hnd hal
    obtain ⟨m, s⟩ := p
    rw [List.map_cons, List.nodup_cons] at hnd
    rw [foldZadd_cons]
    by_cases hm : m = mem
    · subst hm
      have hsc : s = sc := by
        rw [alookup, List.find?_cons_of_pos _ (by simp)] at hal
        simpa using hal
      subst hsc
      rw [foldZadd_score_untouched k rest _ _ hnd.1, zsetOf_dbZadd,
        memberScore_zaddElem_self]
    · have hal' : alookup rest mem = some sc := by
        rw [alookup, List.find?_cons_of_neg _ (by simp [hm])] at hal
        exact hal
      exact ih _ _ _ hnd.2 hal'

theorem foldZadd_count (k : String) :
    ∀ (elems : List (String × Int)) (db : DB),
      (elems.map Prod.fst).Nodup →
      (foldZadd db k elems).2 =
        (elems.filter (fun p => !hasMem (zsetOf db k) p.1)).length := by
  intro elems
  induction elems with
  | nil => intro db _; rfl
  | cons p rest ih =>
    intro db hnd
    obtain ⟨m, s⟩ := p
    rw [List.map_cons, List.nodup_cons] at hnd
    rw [foldZadd_cons, dbZadd_snd]
    have hrest : (foldZadd (dbZadd db k s m).1 k rest).2 =
        (rest.filter (fun p => !hasMem (zsetOf db k) p.1)).length := by
      rw [ih _ hnd.2]
      congr 1
      refine List.filter_congr (fun p hp => ?_)
      have hpm : p.1 ≠ m := by
        intro h
        apply hnd.1
        rw [← h]
        exact List.mem_map.mpr ⟨p, hp, rfl⟩
      rw [zsetOf_dbZadd, hasMem_zaddElem_other hpm]
    rw [hrest]
    cases hhm : hasMem (zsetOf db k) m
    · simp only [List.filter_cons, hhm, Bool.not_false, if_pos,
        List.length_cons]
      omega
    · simp only [List.filter_cons, hhm, Bool.not_true, Bool.false_eq_true,
        if_false]
      omega

/-- **C9**.  A single well-formed ZADD call (here on a key that is absent
or holds an ordered set): the reply is the number of **distinct** members
of the call that were absent immediately before the call — so a duplicated
member contributes at most one, and only when it was absent — and each
member's stored score afterwards is the **last** score given for it in
argument order. -/
theorem claim_C9 (db : DB) (key : String) (rest : List String)
    (pairs : List (Int × String))
    (hp : parsePairs rest = some pairs)
    (hlen : 2 ≤ rest.length) (heven : rest.length % 2 = 0)
    (hty : (dbExists db key && !(dbType db key = "zset")) = false) :
    ∃ db2 : DB,
      cmdZadd (key :: rest) db =
        .reply
          (.ints (((buildElems pairs []).filter
            (fun p => !hasMem (zsetOf db key) p.1)).length)) db2 ∧
      ∀ mem sc, lastScore pairs mem = some sc →
        memberScore (zsetOf db2 key) mem = some sc := by
  have hnd : ((buildElems pairs []).map Prod.fst).Nodup :=
    nodup_keys_buildElems pairs [] (by simp)
  refine ⟨(foldZadd db key (buildElems pairs [])).1, ?_, ?_⟩
  · have hcond : ¬((dbExists db key && !(dbType db key = "zset")) = true) := by
      simp [hty]
    rw [cmdZadd, if_neg (by simp only [List.length_cons]; omega),
      if_neg (by omega)]
    simp only [hp]
    rw [if_neg hcond]
    show HResult.reply
        (.ints ((foldZadd db key (buildElems pairs [])).2 : Int))
        (foldZadd db key (buildElems pairs [])).1 = _
    rw [foldZadd_count key _ db hnd]
  · intro mem sc hls
    refine foldZadd_score key _ db mem sc hnd ?_
    rw [alookup_buildElems, hls]

/-- Witness for C9: `ZADD z 1 a 2 a 3 b` on an empty database — the
duplicated member `a` keeps its last score 2 and counts once; the reply
is 2. -/
theorem claim_C9_witness :
    ∃ db2 : DB,
      cmdZadd ["z", "1", "a", "2", "a", "3", "b"] [] =
        .reply
          (.ints (((buildElems [(1, "a"), (2, "a"), (3, "b")] []).filter
            (fun p => !hasMem (zsetOf [] "z") p.1)).length)) db2 ∧
      ∀ mem sc, lastScore [(1, "a"), (2, "a"), (3, "b")] mem = some sc →
        memberScore (zsetOf db2 "z") mem = some sc :=
  claim_C9 [] "z" ["1", "a", "2", "a", "3", "b"]
    [(1, "a"), (2, "a"), (3, "b")] rfl (by decide) (by decide) (by decide)

end Miniredis
